import Mathlib

/-!
# Verification of the `relayer` block-relay pipeline

Shallow embedding of `src/relayer/src/index.ts` (the relay driver) together
with models of the external capabilities it orchestrates.  The driver code is
embedded as a trace-producing function over an oracle `World` that decides the
outcome of every external call (chain connections, chain-identity queries,
signer derivation, emitted blocks).  The parts of the repository that are only
referenced from `index.ts` (the `Source` and `Target` classes, `getAccount`,
`loadConfig`) are modelled from the specification, as marked on each such
definition.
-/

namespace Relayer

/-- A block flowing through the pipeline: which chain produced it, its
chain-native identifier and its raw payload bytes. -/
structure Block where
  sourceId : String
  height : Nat
  payload : List Nat
  deriving DecidableEq, Repr

/-- A submission built by `Target` immediately before sending: the fixed call,
the payload bytes, the originating chain and the account nonce used. -/
structure Submission where
  sourceId : String
  payload : List Nat
  nonce : Nat
  deriving DecidableEq, Repr

/-- The static type registry literal of `index.ts`:
`const types = { PutDataObject: "Vec<u8>" }`. -/
structure RegistryTypes where
  entries : List (String × String)
  deriving DecidableEq, Repr

/-- `const types = { PutDataObject: "Vec<u8>" };` from `index.ts`. -/
def types : RegistryTypes := ⟨[("PutDataObject", "Vec<u8>")]⟩

/-- Look a type name up in a registry, as the chain handle's codec layer
would to encode a call argument. -/
def RegistryTypes.lookup (r : RegistryTypes) (name : String) : Option String :=
  (r.entries.find? (fun p => p.1 == name)).map Prod.snd

/-- A connected chain handle (`ApiPromise`): the URL it was connected to and
the type registry it was given at connect time (if any). -/
structure Api where
  url : String
  typesArg : Option RegistryTypes
  deriving DecidableEq, Repr

/-- The keypair wrapper produced by `getAccount` from the configured seed. -/
structure Signer where
  seed : String
  deriving DecidableEq, Repr

/-- `new Source({ api, chain })`: a source chain handle together with the
chain identity queried from it. -/
structure Source where
  api : Api
  chain : String
  deriving DecidableEq, Repr

/-- `new Target({ api, signer })`: the target chain handle and the signer,
both exclusively owned by the target. -/
structure Target where
  api : Api
  signer : Signer
  deriving DecidableEq, Repr

/-- The configuration object returned by `loadConfig()`. -/
structure Config where
  targetChainUrl : String
  sourceChainUrls : List String
  accountSeed : String
  deriving DecidableEq, Repr

/-- Oracle for the external world: which connections succeed, what each
chain answers to `rpc.system.chain()`, which seeds parse into keypairs,
which blocks each source chain emits and the current target-account nonce. -/
structure World where
  connectOk : String → Bool
  chainName : String → Option String
  seedOk : String → Bool
  emitted : String → List Block
  startNonce : Nat

/-- `createApi(url, types?)`: connecting a `WsProvider`-backed `ApiPromise`;
fails (the promise rejects) exactly when the oracle says the node is
unreachable. -/
def createApi (w : World) (url : String) (t : Option RegistryTypes) : Option Api :=
  if w.connectOk url then some ⟨url, t⟩ else none

/-- `getAccount(seed)`: derives the keypair from the configured seed, throwing
on an invalid seed phrase. -/
def getAccount (w : World) (seed : String) : Option Signer :=
  if w.seedOk seed then some ⟨seed⟩ else none

/-- Every observable step the driver performs, in the order performed. -/
inductive Event where
  | loadConfig
  | connectTarget (url : String) (reg : Option RegistryTypes)
  | deriveSigner (seed : String)
  | constructTarget
  | connectSource (url : String)
  | queryChain (url : String)
  | constructSource (url : String) (chain : String)
  | subscribeBlocks (idx : Nat)
  | processBlocks (count : Nat)
  | subscribe
  | submit (s : Submission)
  deriving DecidableEq, Repr

/-- The steps one element of the `Promise.all` array performs for its URL
(`await createApi(url)` then `await api.rpc.system.chain()` then
`new Source({api, chain})`), truncated at the first failing await. -/
def sourceTaskEvents (w : World) (url : String) : List Event :=
  if w.connectOk url then
    match w.chainName url with
    | some c => [.connectSource url, .queryChain url, .constructSource url c]
    | none => [.connectSource url, .queryChain url]
  else [.connectSource url]

/-- The value one element of the `Promise.all` array resolves to, `none` if
one of its awaits rejects. -/
def sourceTaskResult (w : World) (url : String) : Option Source :=
  match createApi w url none with
  | none => none
  | some api =>
    match w.chainName url with
    | none => none
    | some c => some ⟨api, c⟩

/-- The value `await Promise.all(config.sourceChainUrls.map(...))` resolves
to: the per-URL results in input-index order, rejecting if any task rejects. -/
def sourceResults (w : World) (urls : List String) : Option (List Source) :=
  urls.mapM (sourceTaskResult w)

/-- Interleave a family of lists according to a schedule of indices: at each
scheduled index the next pending element of that list is taken; indices that
are out of range or exhausted are skipped.  Used both for the cooperative
interleaving of the concurrent source-connection tasks and for the arrival
order of blocks in the merge stage. -/
def interleaveSched {α : Type} : List Nat → List (List α) → List α
  | [], _ => []
  | i :: rest, lss =>
    match lss[i]? with
    | some (x :: xs) => x :: interleaveSched rest (lss.set i xs)
    | _ => interleaveSched rest lss

/-- What remains of each list after running a schedule. -/
def interleaveRem {α : Type} : List Nat → List (List α) → List (List α)
  | [], lss => lss
  | i :: rest, lss =>
    match lss[i]? with
    | some (_ :: xs) => interleaveRem rest (lss.set i xs)
    | _ => interleaveRem rest lss

/-- `m` is an interleaving of the family `lss`: it consumes every list
completely, preserving each list's internal order, with arbitrary
cross-list interleaving. -/
inductive Interleaving {α : Type} : List (List α) → List α → Prop where
  | nil : ∀ lss : List (List α), (∀ l ∈ lss, l = []) → Interleaving lss []
  | cons : ∀ (lss : List (List α)) (i : Nat) (x : α) (xs : List α) (m : List α),
      lss[i]? = some (x :: xs) → Interleaving (lss.set i xs) m →
      Interleaving lss (x :: m)

/-- Modelled from the spec: the serialized submission worker inside
`Target`.  "a single worker loop dequeues, signs, submits, and confirms one
at a time"; each block yields one `SubmissionRequest` with the fixed
"put data object" call carrying `block.payload`, and the nonce is tracked
statefully, consumed once per submission and incremented ("nonce
must be unique and increasing per signer"). -/
def submitAll (nonce0 : Nat) : List Block → List Submission
  | [] => []
  | b :: bs => ⟨b.sourceId, b.payload, nonce0⟩ :: submitAll (nonce0 + 1) bs

/-- Modelled from the spec: the value `target.processBlocks(sequences)`
returns — a cold pipeline description, "it only constructs the
merged/transformed sequence"; no execution state, just the input sequences
and the starting nonce. -/
structure BlockPipeline where
  seqs : List (List Block)
  nonce : Nat
  deriving DecidableEq, Repr

/-- Modelled from the spec: `Target.processBlocks` — constructs the cold
merged pipeline and nothing else.  The nonce is the target account's current
nonce at the time the pipeline later runs. -/
def processBlocks (_t : Target) (w : World) (seqs : List (List Block)) : BlockPipeline :=
  ⟨seqs, w.startNonce⟩

/-- Modelled from the spec: driving (subscribing to) the pipeline.  The merge
stage consumes blocks in arrival order (the schedule), and the serialized
worker submits one transaction per merged block. -/
def subscribePipeline (p : BlockPipeline) (sched : List Nat) : List Submission :=
  submitAll p.nonce (interleaveSched sched p.seqs)

/-- Modelled from the spec: `source.subscribeBlocks()` — the lazy sequence of
blocks the source chain at this handle emits. -/
def subscribeBlocks (w : World) (s : Source) : List Block :=
  w.emitted s.api.url

/-- Outcome of the driver: either the startup promise chain rejected (the
rejection is unhandled, so the process dies), or the pipeline is running
and the process stays alive. -/
inductive Outcome where
  | fatal
  | running (p : BlockPipeline)
  deriving DecidableEq, Repr

/-- Modelled from the spec: "process exit code: non-zero on startup failure,
otherwise the process runs indefinitely (no normal-exit path defined)" —
an unhandled rejection of the top-level IIFE terminates the process with a
non-zero exit code; a running pipeline never exits. -/
def exitsNonZero : Outcome → Bool
  | .fatal => true
  | .running _ => false

/-- The trace of the target-connection phase of the IIFE:
`await createApi(config.targetChainUrl, types)`, then
`getAccount(config.accountSeed)`, then `new Target({api, signer})`.
Stops at the first failure. -/
def targetPhase (cfg : Config) (w : World) : List Event × Option Target :=
  match createApi w cfg.targetChainUrl (some types) with
  | none => ([.loadConfig, .connectTarget cfg.targetChainUrl (some types)], none)
  | some api =>
    match getAccount w cfg.accountSeed with
    | none =>
        ([.loadConfig, .connectTarget cfg.targetChainUrl (some types),
          .deriveSigner cfg.accountSeed], none)
    | some signer =>
        ([.loadConfig, .connectTarget cfg.targetChainUrl (some types),
          .deriveSigner cfg.accountSeed, .constructTarget], some ⟨api, signer⟩)

/-- The whole driver (`const config = loadConfig()` plus the top-level async
IIFE of `index.ts`) as a trace of events and a final outcome.  `srcSched` is
the cooperative interleaving of the concurrent `Promise.all` source tasks;
`mergeSched` is the arrival order of blocks at the merge stage once the
pipeline is driven. -/
def driverRun (cfg : Config) (w : World) (srcSched : List Nat) (mergeSched : List Nat) :
    List Event × Outcome :=
  match targetPhase cfg w with
  | (tr, none) => (tr, .fatal)
  | (tr, some target) =>
    let srcPhase := interleaveSched srcSched (cfg.sourceChainUrls.map (sourceTaskEvents w))
    match sourceResults w cfg.sourceChainUrls with
    | none => (tr ++ srcPhase, .fatal)
    | some sources =>
      let subs := sources.map (subscribeBlocks w)
      let pipeline := processBlocks target w subs
      let submissions := subscribePipeline pipeline mergeSched
      (tr ++ srcPhase
          ++ (List.range sources.length).map .subscribeBlocks
          ++ [.processBlocks sources.length, .subscribe]
          ++ submissions.map .submit,
       .running pipeline)

/-- One settlement step of the `Promise.all` bookkeeping: when task `i`
settles, its value (if it fulfilled) is stored in slot `i` of the result
array. -/
def fillSlot {α : Type} (tasks : List (Option α)) (s : Nat → Option α) (i : Nat) :
    Nat → Option α :=
  fun j => if j = i then (tasks[i]?).getD none else s j

/-- The result slots of `Promise.all` after the tasks settle in the order
given by `sched`. -/
def promiseAllSlots {α : Type} (tasks : List (Option α)) (sched : List Nat) :
    Nat → Option α :=
  sched.foldl (fillSlot tasks) (fun _ => none)

/-- Read the result slots out at the given indices; fails if any slot is
unfilled. -/
def gatherSlots {α : Type} (s : Nat → Option α) : List Nat → Option (List α)
  | [] => some []
  | i :: is =>
    match s i, gatherSlots s is with
    | some a, some rest => some (a :: rest)
    | _, _ => none

/-- `Promise.all` of the settled tasks under settlement order `sched`: the
slots read out in input-index order, rejecting if any slot is missing. -/
def promiseAll {α : Type} (tasks : List (Option α)) (sched : List Nat) :
    Option (List α) :=
  gatherSlots (promiseAllSlots tasks sched) (List.range tasks.length)

/-- Resolve a task list in input-index order: the settlement-order-independent
denotation that `Promise.all` is expected to have. -/
def sequenceTasks {α : Type} : List (Option α) → Option (List α)
  | [] => some []
  | none :: _ => none
  | some a :: ts =>
    match sequenceTasks ts with
    | some rest => some (a :: rest)
    | none => none

/-- A two-source configuration used as a concrete test vector. -/
def cfgAB : Config :=
  ⟨"ws://target", ["ws://a", "ws://b"], "sample seed phrase"⟩

/-- A world in which every node is reachable, every chain answers its
identity query, the seed parses, and each source emits a couple of blocks. -/
def worldOk : World where
  connectOk := fun _ => true
  chainName := fun u => some ("chain:" ++ u)
  seedOk := fun _ => true
  emitted := fun u =>
    if u == "ws://a" then
      [⟨"chain:ws://a", 1, [1]⟩, ⟨"chain:ws://a", 2, [2]⟩]
    else if u == "ws://b" then
      [⟨"chain:ws://b", 10, [3]⟩]
    else []
  startNonce := 5

/-- The Source that connecting to "ws://a" in `worldOk` yields. -/
def srcA : Source := ⟨⟨"ws://a", none⟩, "chain:ws://a"⟩

/-- The Source that connecting to "ws://b" in `worldOk` yields. -/
def srcB : Source := ⟨⟨"ws://b", none⟩, "chain:ws://b"⟩

/-- A configuration with no source chains at all. -/
def cfgNoSources : Config := ⟨"ws://target", [], "sample seed phrase"⟩

/-- A world in which no node is reachable at all. -/
def worldTargetDown : World where
  connectOk := fun _ => false
  chainName := fun _ => none
  seedOk := fun _ => true
  emitted := fun _ => []
  startNonce := 0

/-- A world in which the target chain and source "b" are reachable but
source "a" is not. -/
def worldAFails : World where
  connectOk := fun u => u == "ws://target" || u == "ws://b"
  chainName := fun u =>
    if u == "ws://b" then some "chain-b"
    else if u == "ws://target" then some "target-chain"
    else none
  seedOk := fun _ => true
  emitted := fun _ => []
  startNonce := 0

/-- Every block of the `j`-th sequence carries the `j`-th chain identity as
its `sourceId`, and the sequence and identity lists are aligned. -/
def Homogeneous (seqs : List (List Block)) (ids : List String) : Prop :=
  seqs.length = ids.length ∧
  ∀ p ∈ seqs.zip ids, ∀ b ∈ p.1, b.sourceId = p.2

instance instDecidableHomogeneous (seqs : List (List Block)) (ids : List String) :
    Decidable (Homogeneous seqs ids) :=
  inferInstanceAs (Decidable (seqs.length = ids.length ∧
    ∀ p ∈ seqs.zip ids, ∀ b ∈ p.1, b.sourceId = p.2))

/-- Concrete test blocks from source chain "a". -/
def blkA1 : Block := ⟨"a", 1, [1]⟩

/-- Concrete test blocks from source chain "a". -/
def blkA2 : Block := ⟨"a", 2, [2]⟩

/-- Concrete test block from source chain "b". -/
def blkB1 : Block := ⟨"b", 10, [3]⟩

/-! ## Properties of the interleaving combinators -/

theorem interleaveSched_sound {α : Type} :
    ∀ (sched : List Nat) (lss : List (List α)),
      (∀ l ∈ interleaveRem sched lss, l = []) →
      Interleaving lss (interleaveSched sched lss) := by
  intro sched
  induction sched with
  | nil =>
    intro lss h
    exact Interleaving.nil lss h
  | cons i rest ih =>
    intro lss h
    cases hg : lss[i]? with
    | none =>
      have h' : ∀ l ∈ interleaveRem rest lss, l = [] := by
        intro l hl
        exact h l (by simpa [interleaveRem, hg] using hl)
      simpa [interleaveSched, hg] using ih lss h'
    | some l0 =>
      cases l0 with
      | nil =>
        have h' : ∀ l ∈ interleaveRem rest lss, l = [] := by
          intro l hl
          exact h l (by simpa [interleaveRem, hg] using hl)
        simpa [interleaveSched, hg] using ih lss h'
      | cons x xs =>
        have h' : ∀ l ∈ interleaveRem rest (lss.set i xs), l = [] := by
          intro l hl
          exact h l (by simpa [interleaveRem, hg] using hl)
        have hrec := ih (lss.set i xs) h'
        have heq : interleaveSched (i :: rest) lss
            = x :: interleaveSched rest (lss.set i xs) := by
          simp [interleaveSched, hg]
        rw [heq]
        exact Interleaving.cons lss i x xs _ hg hrec

theorem Interleaving.exists_sched {α : Type} {lss : List (List α)} {m : List α}
    (h : Interleaving lss m) : ∃ sched, interleaveSched sched lss = m := by
  induction h with
  | nil lss h => exact ⟨[], rfl⟩
  | cons lss i x xs m hg _ ih =>
    obtain ⟨sched, hs⟩ := ih
    exact ⟨i :: sched, by simp [interleaveSched, hg, hs]⟩

theorem interleaveSched_mem {α : Type} :
    ∀ (sched : List Nat) (lss : List (List α)) (x : α),
      x ∈ interleaveSched sched lss → ∃ l, l ∈ lss ∧ x ∈ l := by
  intro sched
  induction sched with
  | nil =>
    intro lss x hx
    simp [interleaveSched] at hx
  | cons i rest ih =>
    intro lss x hx
    cases hg : lss[i]? with
    | none =>
      simp only [interleaveSched, hg] at hx
      exact ih lss x hx
    | some l0 =>
      cases l0 with
      | nil =>
        simp only [interleaveSched, hg] at hx
        exact ih lss x hx
      | cons y ys =>
        simp only [interleaveSched, hg, List.mem_cons] at hx
        rcases hx with hxy | hx
        · exact ⟨y :: ys, List.getElem?_mem hg, by simp [hxy]⟩
        · obtain ⟨l, hl, hxl⟩ := ih _ x hx
          rcases List.mem_or_eq_of_mem_set hl with hl' | hly
          · exact ⟨l, hl', hxl⟩
          · exact ⟨y :: ys, List.getElem?_mem hg,
              List.mem_cons_of_mem y (hly ▸ hxl)⟩

theorem interleaveSched_empty {α : Type} :
    ∀ sched : List Nat, interleaveSched sched ([] : List (List α)) = [] := by
  intro sched
  induction sched with
  | nil => rfl
  | cons i rest ih => simp [interleaveSched, ih]

theorem Interleaving.filter_proj {α β : Type} [DecidableEq β] (f : α → β)
    {lss : List (List α)} {m : List α} (h : Interleaving lss m) :
    ∀ ids : List β, lss.length = ids.length →
      (∀ (j : Nat) (l : List α) (idj : β), lss[j]? = some l → ids[j]? = some idj →
          ∀ x ∈ l, f x = idj) →
      ids.Nodup →
      ∀ (j : Nat) (l : List α) (idj : β), lss[j]? = some l → ids[j]? = some idj →
        m.filter (fun x => decide (f x = idj)) = l := by
  induction h with
  | nil lss hemp =>
    intro ids _ _ _ j l idj hl _
    have : l = [] := hemp l (List.getElem?_mem hl)
    simp [this]
  | cons lss i x xs m hg _ ih =>
    intro ids hlen htag hnd j l idj hl hid
    have hi : i < lss.length := (List.getElem?_eq_some_iff.mp hg).1
    have hiId : i < ids.length := hlen ▸ hi
    obtain ⟨idi, hidi⟩ : ∃ idi, ids[i]? = some idi :=
      ⟨ids[i], List.getElem?_eq_some_iff.mpr ⟨hiId, rfl⟩⟩
    have hfx : f x = idi := htag i (x :: xs) idi hg hidi x (List.mem_cons_self x xs)
    have hseti : (lss.set i xs)[i]? = some xs := List.getElem?_set_eq_of_lt xs hi
    have hlen' : (lss.set i xs).length = ids.length := by
      rw [List.length_set]; exact hlen
    have htag' : ∀ (j : Nat) (l : List α) (idj : β), (lss.set i xs)[j]? = some l →
        ids[j]? = some idj → ∀ y ∈ l, f y = idj := by
      intro j l idj hjl hjid y hy
      by_cases hji : j = i
      · subst hji
        rw [hseti] at hjl
        have hlxs : l = xs := (Option.some.inj hjl).symm
        exact htag j (x :: xs) idj hg hjid y (List.mem_cons_of_mem x (hlxs ▸ hy))
      · have hne : i ≠ j := fun e => hji e.symm
        rw [List.getElem?_set_ne hne] at hjl
        exact htag j l idj hjl hjid y hy
    by_cases hji : j = i
    · subst hji
      rw [hl] at hg
      have hlx : l = x :: xs := Option.some.inj hg
      rw [hid] at hidi
      have hidj : idi = idj := (Option.some.inj hidi).symm
      subst hidj
      have htail := ih ids hlen' htag' hnd j xs idi hseti hid
      rw [hlx]
      simp [List.filter_cons, hfx, htail]
    · have hneq : idi ≠ idj := by
        intro e
        obtain ⟨hj1, hj2⟩ := List.getElem?_eq_some_iff.mp hid
        obtain ⟨hi1, hi2⟩ := List.getElem?_eq_some_iff.mp hidi
        exact hji ((hnd.getElem_inj_iff.mp (by rw [hj2, hi2, e])).symm)
      have hne : i ≠ j := fun e => hji e.symm
      have hsetj : (lss.set i xs)[j]? = some l := by
        rw [List.getElem?_set_ne hne]; exact hl
      have htail := ih ids hlen' htag' hnd j l idj hsetj hid
      have hfalse : ¬ (f x = idj) := by rw [hfx]; exact hneq
      simp [List.filter_cons, hfalse, htail]

/-! ## Properties of the serialized submission worker -/

theorem submitAll_getElem? :
    ∀ (n0 : Nat) (bs : List Block) (i : Nat),
      (submitAll n0 bs)[i]? =
        bs[i]?.map (fun b => (⟨b.sourceId, b.payload, n0 + i⟩ : Submission)) := by
  intro n0 bs
  induction bs generalizing n0 with
  | nil => intro i; simp [submitAll]
  | cons b bs ih =>
    intro i
    cases i with
    | zero => simp [submitAll]
    | succ i =>
      have harith : n0 + 1 + i = n0 + (i + 1) := by omega
      have hrec := ih (n0 + 1) i
      rw [harith] at hrec
      simpa [submitAll] using hrec

theorem submitAll_length (n0 : Nat) (bs : List Block) :
    (submitAll n0 bs).length = bs.length := by
  induction bs generalizing n0 with
  | nil => rfl
  | cons b bs ih => simp [submitAll, ih]

theorem submitAll_filter_map (idt : String) :
    ∀ (n0 : Nat) (bs : List Block),
      ((submitAll n0 bs).filter (fun s => decide (s.sourceId = idt))).map
          Submission.payload
        = (bs.filter (fun b => decide (b.sourceId = idt))).map Block.payload := by
  intro n0 bs
  induction bs generalizing n0 with
  | nil => simp [submitAll]
  | cons b bs ih =>
    by_cases hb : b.sourceId = idt
    · simp [submitAll, List.filter_cons, hb, ih (n0 + 1)]
    · simp [submitAll, List.filter_cons, hb, ih (n0 + 1)]

theorem Homogeneous.tag {seqs : List (List Block)} {ids : List String}
    (h : Homogeneous seqs ids) :
    ∀ (j : Nat) (l : List Block) (idj : String), seqs[j]? = some l →
      ids[j]? = some idj → ∀ b ∈ l, b.sourceId = idj := by
  intro j l idj hl hid b hb
  have hzip : (seqs.zip ids)[j]? = some (l, idj) :=
    List.getElem?_zip_eq_some.mpr ⟨hl, hid⟩
  exact h.2 (l, idj) (List.getElem?_mem hzip) b hb

/-- C1: every Block successfully processed by the Target's serialized
submission worker yields exactly one submission carrying that Block's
payload, and the nonces used are strictly increasing with the submission
order (hence pairwise distinct) for the signer account. -/
theorem relayer_C1_one_tx_per_block_nonces_increasing (n0 : Nat) (bs : List Block) :
    (submitAll n0 bs).length = bs.length ∧
    (∀ (i : Nat) (b : Block), bs[i]? = some b →
        (submitAll n0 bs)[i]? = some ⟨b.sourceId, b.payload, n0 + i⟩) ∧
    (∀ (i j : Nat) (si sj : Submission), i < j →
        (submitAll n0 bs)[i]? = some si → (submitAll n0 bs)[j]? = some sj →
        si.nonce < sj.nonce) ∧
    (∀ (i j : Nat) (si sj : Submission), i ≠ j →
        (submitAll n0 bs)[i]? = some si → (submitAll n0 bs)[j]? = some sj →
        si.nonce ≠ sj.nonce) := by
  refine ⟨submitAll_length n0 bs, ?_, ?_, ?_⟩
  · intro i b hb
    rw [submitAll_getElem?, hb]
    rfl
  · intro i j si sj hij hi hj
    rw [submitAll_getElem?] at hi hj
    obtain ⟨bi, _, hfi⟩ := Option.map_eq_some'.mp hi
    obtain ⟨bj, _, hfj⟩ := Option.map_eq_some'.mp hj
    have h1 : si.nonce = n0 + i := by rw [← hfi]
    have h2 : sj.nonce = n0 + j := by rw [← hfj]
    omega
  · intro i j si sj hij hi hj
    rw [submitAll_getElem?] at hi hj
    obtain ⟨bi, _, hfi⟩ := Option.map_eq_some'.mp hi
    obtain ⟨bj, _, hfj⟩ := Option.map_eq_some'.mp hj
    have h1 : si.nonce = n0 + i := by rw [← hfi]
    have h2 : sj.nonce = n0 + j := by rw [← hfj]
    omega

/-- Witness for C1: processing two concrete blocks from nonce 5 submits the
second block's payload with nonce 6. -/
theorem relayer_C1_witness :
    (submitAll 5 [⟨"a", 1, [1]⟩, ⟨"a", 2, [2]⟩])[1]? = some ⟨"a", [2], 5 + 1⟩ :=
  (relayer_C1_one_tx_per_block_nonces_increasing 5
    [⟨"a", 1, [1]⟩, ⟨"a", 2, [2]⟩]).2.1 1 ⟨"a", 2, [2]⟩ (by decide)

/-- C2: for every single source, the relative order of its blocks is
preserved through the merge and the Target's submission worker (the
submissions tagged with that source's identity carry exactly that source's
payloads in emission order), while cross-source order is unconstrained: any
interleaving consistent with each source's internal order is realizable by
some arrival schedule of the merge stage. -/
theorem relayer_C2_per_source_order (seqs : List (List Block)) (ids : List String)
    (n0 : Nat) :
    (∀ sched : List Nat, (∀ l ∈ interleaveRem sched seqs, l = []) →
      Homogeneous seqs ids → ids.Nodup →
      ∀ (j : Nat) (l : List Block) (idj : String), seqs[j]? = some l →
        ids[j]? = some idj →
        ((subscribePipeline ⟨seqs, n0⟩ sched).filter
            (fun s => decide (s.sourceId = idj))).map Submission.payload
          = l.map Block.payload) ∧
    (∀ m : List Block, Interleaving seqs m →
        ∃ sched, interleaveSched sched seqs = m) := by
  constructor
  · intro sched hdrain hhom hnd j l idj hl hid
    have hIl := interleaveSched_sound sched seqs hdrain
    have hproj := Interleaving.filter_proj Block.sourceId hIl ids hhom.1 hhom.tag
      hnd j l idj hl hid
    calc ((subscribePipeline ⟨seqs, n0⟩ sched).filter
            (fun s => decide (s.sourceId = idj))).map Submission.payload
        = ((interleaveSched sched seqs).filter
            (fun b => decide (b.sourceId = idj))).map Block.payload := by
          simpa [subscribePipeline] using
            submitAll_filter_map idj n0 (interleaveSched sched seqs)
      _ = l.map Block.payload := by rw [hproj]
  · intro m h
    exact h.exists_sched

/-- Witness for C2: with sources `a` (two blocks) and `b` (one block) and the
arrival schedule a,b,a, source `a`'s submissions carry `[1]` then `[2]` in
order, and the interleaving b,a,a is realizable by some schedule. -/
theorem relayer_C2_witness :
    (((subscribePipeline ⟨[[blkA1, blkA2], [blkB1]], 0⟩
          [0, 1, 0]).filter (fun s => decide (s.sourceId = "a"))).map
        Submission.payload = [[1], [2]]) ∧
    (∃ sched : List Nat, interleaveSched sched [[blkA1, blkA2], [blkB1]]
        = [blkB1, blkA1, blkA2]) := by
  constructor
  · exact (relayer_C2_per_source_order
      [[blkA1, blkA2], [blkB1]] ["a", "b"] 0).1
      [0, 1, 0] (by decide) (by decide) (by decide) 0
      [blkA1, blkA2] "a" (by decide) (by decide)
  · exact (relayer_C2_per_source_order
      [[blkA1, blkA2], [blkB1]] ["a", "b"] 0).2
      [blkB1, blkA1, blkA2]
      (Interleaving.cons [[blkA1, blkA2], [blkB1]] 1 blkB1 [] [blkA1, blkA2] rfl
        (Interleaving.cons [[blkA1, blkA2], []] 0 blkA1 [blkA2] [blkA2] rfl
          (Interleaving.cons [[blkA2], []] 0 blkA2 [] [] rfl
            (Interleaving.nil [[], []] (by decide)))))

/-! ## Shape of the driver's runs -/

theorem targetPhase_connect_fail (cfg : Config) (w : World)
    (h : w.connectOk cfg.targetChainUrl = false) :
    targetPhase cfg w =
      ([.loadConfig, .connectTarget cfg.targetChainUrl (some types)], none) := by
  simp [targetPhase, createApi, h]

theorem targetPhase_seed_fail (cfg : Config) (w : World)
    (hT : w.connectOk cfg.targetChainUrl = true)
    (hS : w.seedOk cfg.accountSeed = false) :
    targetPhase cfg w =
      ([.loadConfig, .connectTarget cfg.targetChainUrl (some types),
        .deriveSigner cfg.accountSeed], none) := by
  simp [targetPhase, createApi, getAccount, hT, hS]

theorem targetPhase_ok (cfg : Config) (w : World)
    (hT : w.connectOk cfg.targetChainUrl = true)
    (hS : w.seedOk cfg.accountSeed = true) :
    targetPhase cfg w =
      ([.loadConfig, .connectTarget cfg.targetChainUrl (some types),
        .deriveSigner cfg.accountSeed, .constructTarget],
       some ⟨⟨cfg.targetChainUrl, some types⟩, ⟨cfg.accountSeed⟩⟩) := by
  simp [targetPhase, createApi, getAccount, hT, hS]

theorem driverRun_success (cfg : Config) (w : World) (srcSched mergeSched : List Nat)
    (srcs : List Source)
    (hT : w.connectOk cfg.targetChainUrl = true)
    (hS : w.seedOk cfg.accountSeed = true)
    (hsrc : sourceResults w cfg.sourceChainUrls = some srcs) :
    driverRun cfg w srcSched mergeSched =
      ([.loadConfig, .connectTarget cfg.targetChainUrl (some types),
        .deriveSigner cfg.accountSeed, .constructTarget]
        ++ interleaveSched srcSched (cfg.sourceChainUrls.map (sourceTaskEvents w))
        ++ (List.range srcs.length).map .subscribeBlocks
        ++ [.processBlocks srcs.length, .subscribe]
        ++ (subscribePipeline ⟨srcs.map (subscribeBlocks w), w.startNonce⟩
              mergeSched).map .submit,
       .running ⟨srcs.map (subscribeBlocks w), w.startNonce⟩) := by
  simp [driverRun, targetPhase_ok cfg w hT hS, hsrc, processBlocks]

theorem driverRun_source_fail (cfg : Config) (w : World) (srcSched mergeSched : List Nat)
    (hT : w.connectOk cfg.targetChainUrl = true)
    (hS : w.seedOk cfg.accountSeed = true)
    (hsrc : sourceResults w cfg.sourceChainUrls = none) :
    driverRun cfg w srcSched mergeSched =
      ([.loadConfig, .connectTarget cfg.targetChainUrl (some types),
        .deriveSigner cfg.accountSeed, .constructTarget]
        ++ interleaveSched srcSched (cfg.sourceChainUrls.map (sourceTaskEvents w)),
       .fatal) := by
  simp [driverRun, targetPhase_ok cfg w hT hS, hsrc]

theorem driverRun_target_fail (cfg : Config) (w : World) (srcSched mergeSched : List Nat)
    (h : w.connectOk cfg.targetChainUrl = false) :
    driverRun cfg w srcSched mergeSched =
      ([.loadConfig, .connectTarget cfg.targetChainUrl (some types)], .fatal) := by
  simp [driverRun, targetPhase_connect_fail cfg w h]

theorem driverRun_seed_fail (cfg : Config) (w : World) (srcSched mergeSched : List Nat)
    (hT : w.connectOk cfg.targetChainUrl = true)
    (hS : w.seedOk cfg.accountSeed = false) :
    driverRun cfg w srcSched mergeSched =
      ([.loadConfig, .connectTarget cfg.targetChainUrl (some types),
        .deriveSigner cfg.accountSeed], .fatal) := by
  simp [driverRun, targetPhase_seed_fail cfg w hT hS]

theorem sourceTaskEvents_cases (w : World) (url : String) (e : Event)
    (he : e ∈ sourceTaskEvents w url) :
    e = .connectSource url ∨ e = .queryChain url ∨ ∃ c, e = .constructSource url c := by
  unfold sourceTaskEvents at he
  by_cases hc : w.connectOk url
  · rw [if_pos hc] at he
    cases hn : w.chainName url with
    | none =>
      rw [hn] at he
      simp only [List.mem_cons, List.not_mem_nil, or_false] at he
      rcases he with rfl | rfl
      · exact .inl rfl
      · exact .inr (.inl rfl)
    | some c =>
      rw [hn] at he
      simp only [List.mem_cons, List.not_mem_nil, or_false] at he
      rcases he with rfl | rfl | rfl
      · exact .inl rfl
      · exact .inr (.inl rfl)
      · exact .inr (.inr ⟨c, rfl⟩)
  · rw [if_neg hc] at he
    simp only [List.mem_cons, List.not_mem_nil, or_false] at he
    exact .inl he

theorem srcPhase_only_source_events (w : World) (urls : List String)
    (sched : List Nat) (e : Event)
    (he : e ∈ interleaveSched sched (urls.map (sourceTaskEvents w))) :
    (∀ n, e ≠ .processBlocks n) ∧ e ≠ .subscribe ∧
    (∀ s, e ≠ .submit s) ∧ (∀ i, e ≠ .subscribeBlocks i) := by
  obtain ⟨l, hl, hel⟩ := interleaveSched_mem sched _ e he
  obtain ⟨url, _, rfl⟩ := List.mem_map.mp hl
  rcases sourceTaskEvents_cases w url e hel with rfl | rfl | ⟨c, rfl⟩ <;> simp

theorem sourceTaskResult_some (w : World) (url : String) (s : Source)
    (h : sourceTaskResult w url = some s) :
    w.connectOk url = true ∧ ∃ c, w.chainName url = some c ∧ s = ⟨⟨url, none⟩, c⟩ := by
  unfold sourceTaskResult createApi at h
  by_cases hc : w.connectOk url
  · rw [if_pos hc] at h
    cases hn : w.chainName url with
    | none => rw [hn] at h; simp at h
    | some c =>
      rw [hn] at h
      simp only [Option.some.injEq] at h
      exact ⟨hc, c, rfl, h.symm⟩
  · rw [if_neg hc] at h
    simp at h

theorem sourceResults_none_of_task_fail (w : World) :
    ∀ (urls : List String) (url : String), url ∈ urls →
      sourceTaskResult w url = none → sourceResults w urls = none := by
  intro urls
  induction urls with
  | nil => intro url h; simp at h
  | cons u us ih =>
    intro url hmem hfail
    rcases List.mem_cons.mp hmem with rfl | hmem'
    · unfold sourceResults
      rw [List.mapM_cons, hfail]
      rfl
    · have htail : sourceResults w us = none := ih url hmem' hfail
      unfold sourceResults at htail ⊢
      rw [List.mapM_cons]
      cases sourceTaskResult w u with
      | none => rfl
      | some s0 =>
        simp only [Option.pure_def, Option.bind_eq_bind, Option.some_bind]
        rw [htail]
        rfl

theorem sourceResults_spec (w : World) :
    ∀ (urls : List String) (srcs : List Source),
      sourceResults w urls = some srcs →
      srcs.length = urls.length ∧
      ∀ (i : Nat) (u : String), urls[i]? = some u →
        ∃ c, w.chainName u = some c ∧ srcs[i]? = some ⟨⟨u, none⟩, c⟩ := by
  intro urls
  induction urls with
  | nil =>
    intro srcs h
    rw [show sourceResults w [] = some [] from rfl] at h
    obtain rfl : srcs = [] := (Option.some.inj h).symm
    exact ⟨rfl, by intro i u hu; simp at hu⟩
  | cons u us ih =>
    intro srcs h
    unfold sourceResults at h
    rw [List.mapM_cons] at h
    cases hu : sourceTaskResult w u with
    | none => rw [hu] at h; simp at h
    | some s0 =>
      rw [hu] at h
      cases hus : us.mapM (sourceTaskResult w) with
      | none => rw [hus] at h; simp at h
      | some rest =>
        rw [hus] at h
        simp only [Option.pure_def, Option.bind_eq_bind, Option.some_bind,
          Option.some.injEq] at h
        subst h
        obtain ⟨hlen, hget⟩ := ih rest hus
        refine ⟨by simp [hlen], ?_⟩
        intro i u' hu'
        cases i with
        | zero =>
          have huu : u = u' := by simpa using hu'
          rw [← huu]
          obtain ⟨_, c, hc, hs0⟩ := sourceTaskResult_some w u s0 hu
          exact ⟨c, hc, by simp [hs0]⟩
        | succ i =>
          simp only [List.getElem?_cons_succ] at hu' ⊢
          exact hget i u' hu'

/-- C4: on a successful startup the driver performs exactly this sequence:
load config, connect the target chain handle with the type registry, derive
the signer from the seed, construct the Target, then run the per-source-URL
connection tasks (each connecting a handle, querying the chain identity and
constructing a Source, in that per-URL order, interleaved arbitrarily across
URLs), then collect subscribeBlocks per source, then call processBlocks,
then subscribe to the resulting sequence. -/
theorem relayer_C4_startup_sequence (cfg : Config) (w : World)
    (srcSched mergeSched : List Nat) (srcs : List Source)
    (hT : w.connectOk cfg.targetChainUrl = true)
    (hS : w.seedOk cfg.accountSeed = true)
    (hsrc : sourceResults w cfg.sourceChainUrls = some srcs) :
    (driverRun cfg w srcSched mergeSched).1 =
      [Event.loadConfig, Event.connectTarget cfg.targetChainUrl (some types),
       Event.deriveSigner cfg.accountSeed, Event.constructTarget]
      ++ interleaveSched srcSched (cfg.sourceChainUrls.map (sourceTaskEvents w))
      ++ (List.range srcs.length).map Event.subscribeBlocks
      ++ [Event.processBlocks srcs.length, Event.subscribe]
      ++ (subscribePipeline ⟨srcs.map (subscribeBlocks w), w.startNonce⟩
            mergeSched).map Event.submit
    ∧ (∀ url c, url ∈ cfg.sourceChainUrls → w.connectOk url = true →
        w.chainName url = some c →
        sourceTaskEvents w url =
          [Event.connectSource url, Event.queryChain url,
           Event.constructSource url c])
    ∧ ((∀ l ∈ interleaveRem srcSched (cfg.sourceChainUrls.map (sourceTaskEvents w)),
          l = []) →
        Interleaving (cfg.sourceChainUrls.map (sourceTaskEvents w))
          (interleaveSched srcSched (cfg.sourceChainUrls.map (sourceTaskEvents w)))) := by
  refine ⟨?_, ?_, ?_⟩
  · rw [driverRun_success cfg w srcSched mergeSched srcs hT hS hsrc]
  · intro url c _ hc hn
    simp [sourceTaskEvents, hc, hn]
  · exact interleaveSched_sound srcSched _

/-- Witness for C4: in a fully reachable world the per-URL task for
"ws://a" is connect, query identity, construct Source — in that order. -/
theorem relayer_C4_witness :
    sourceTaskEvents worldOk "ws://a" =
      [Event.connectSource "ws://a", Event.queryChain "ws://a",
       Event.constructSource "ws://a" "chain:ws://a"] :=
  (relayer_C4_startup_sequence cfgAB worldOk [0, 0, 0, 1, 1, 1] [] [srcA, srcB]
    (by decide) (by decide) (by decide)).2.1 "ws://a" "chain:ws://a"
    (by decide) (by decide) (by decide)

/-- C10: no source-chain connection is ever attempted unless the target
connection and the signer derivation both succeeded; a run that attempts a
source connection begins with the four target-phase steps. -/
theorem relayer_C10_target_before_sources (cfg : Config) (w : World)
    (srcSched mergeSched : List Nat) :
    ((w.connectOk cfg.targetChainUrl = false ∨ w.seedOk cfg.accountSeed = false) →
      ∀ url, Event.connectSource url ∉ (driverRun cfg w srcSched mergeSched).1) ∧
    (∀ url, Event.connectSource url ∈ (driverRun cfg w srcSched mergeSched).1 →
      w.connectOk cfg.targetChainUrl = true ∧ w.seedOk cfg.accountSeed = true ∧
      ∃ rest, (driverRun cfg w srcSched mergeSched).1 =
        [Event.loadConfig, Event.connectTarget cfg.targetChainUrl (some types),
         Event.deriveSigner cfg.accountSeed, Event.constructTarget] ++ rest) := by
  constructor
  · intro h url
    rcases h with h | h
    · rw [driverRun_target_fail cfg w srcSched mergeSched h]
      simp
    · by_cases hT : w.connectOk cfg.targetChainUrl
      · rw [driverRun_seed_fail cfg w srcSched mergeSched hT h]
        simp
      · rw [driverRun_target_fail cfg w srcSched mergeSched (by simpa using hT)]
        simp
  · intro url hmem
    by_cases hT : w.connectOk cfg.targetChainUrl
    · by_cases hS : w.seedOk cfg.accountSeed
      · refine ⟨hT, hS, ?_⟩
        cases hsrc : sourceResults w cfg.sourceChainUrls with
        | none =>
          rw [driverRun_source_fail cfg w srcSched mergeSched hT hS hsrc]
          exact ⟨_, rfl⟩
        | some srcs =>
          rw [driverRun_success cfg w srcSched mergeSched srcs hT hS hsrc]
          exact ⟨_, rfl⟩
      · rw [driverRun_seed_fail cfg w srcSched mergeSched hT
          (by simpa using hS)] at hmem
        simp at hmem
    · rw [driverRun_target_fail cfg w srcSched mergeSched
        (by simpa using hT)] at hmem
      simp at hmem

/-- Witness for C10: in the fully reachable world a source connection is
attempted, and the trace indeed starts with the four target-phase steps. -/
theorem relayer_C10_witness :
    worldOk.connectOk cfgAB.targetChainUrl = true ∧
    worldOk.seedOk cfgAB.accountSeed = true ∧
    ∃ rest, (driverRun cfgAB worldOk [0, 0, 0, 1, 1, 1] []).1 =
      [Event.loadConfig, Event.connectTarget cfgAB.targetChainUrl (some types),
       Event.deriveSigner cfgAB.accountSeed, Event.constructTarget] ++ rest :=
  (relayer_C10_target_before_sources cfgAB worldOk [0, 0, 0, 1, 1, 1] []).2
    "ws://a" (by decide)

theorem driver_startup_fail_props (cfg : Config) (w : World)
    (srcSched mergeSched : List Nat)
    (h : w.connectOk cfg.targetChainUrl = false ∨ w.seedOk cfg.accountSeed = false) :
    (driverRun cfg w srcSched mergeSched).2 = Outcome.fatal ∧
    exitsNonZero (driverRun cfg w srcSched mergeSched).2 = true ∧
    (∀ s, Event.submit s ∉ (driverRun cfg w srcSched mergeSched).1) ∧
    (∀ n, Event.processBlocks n ∉ (driverRun cfg w srcSched mergeSched).1) ∧
    Event.subscribe ∉ (driverRun cfg w srcSched mergeSched).1 := by
  rcases h with h | h
  · rw [driverRun_target_fail cfg w srcSched mergeSched h]
    refine ⟨rfl, rfl, ?_, ?_, ?_⟩ <;> simp [exitsNonZero]
  · by_cases hT : w.connectOk cfg.targetChainUrl
    · rw [driverRun_seed_fail cfg w srcSched mergeSched hT h]
      refine ⟨rfl, rfl, ?_, ?_, ?_⟩ <;> simp [exitsNonZero]
    · rw [driverRun_target_fail cfg w srcSched mergeSched (by simpa using hT)]
      refine ⟨rfl, rfl, ?_, ?_, ?_⟩ <;> simp [exitsNonZero]

/-- C5: failure to connect to the target chain or to derive the signer is
fatal at startup: the process exits non-zero, and no submission, pipeline
construction or driving ever happens. -/
theorem relayer_C5_startup_failure_fatal (cfg : Config) (w : World)
    (srcSched mergeSched : List Nat)
    (h : w.connectOk cfg.targetChainUrl = false ∨ w.seedOk cfg.accountSeed = false) :
    (driverRun cfg w srcSched mergeSched).2 = Outcome.fatal ∧
    exitsNonZero (driverRun cfg w srcSched mergeSched).2 = true ∧
    (∀ s, Event.submit s ∉ (driverRun cfg w srcSched mergeSched).1) ∧
    (∀ n, Event.processBlocks n ∉ (driverRun cfg w srcSched mergeSched).1) ∧
    Event.subscribe ∉ (driverRun cfg w srcSched mergeSched).1 :=
  driver_startup_fail_props cfg w srcSched mergeSched h

/-- Witness for C5: an unreachable target node makes the concrete run fatal. -/
theorem relayer_C5_witness :
    (driverRun cfgAB worldTargetDown [] []).2 = Outcome.fatal :=
  (relayer_C5_startup_failure_fatal cfgAB worldTargetDown [] []
    (Or.inl (by decide))).1

/-- C6: in every run the target chain handle is connected with the static
type registry, which maps the fixed "PutDataObject" call to the byte-vector
codec "Vec<u8>", so the target connection can encode the relayed payload. -/
theorem relayer_C6_type_registry (cfg : Config) (w : World)
    (srcSched mergeSched : List Nat) :
    (∃ rest, (driverRun cfg w srcSched mergeSched).1 =
        Event.loadConfig ::
          Event.connectTarget cfg.targetChainUrl (some types) :: rest) ∧
    types.lookup "PutDataObject" = some "Vec<u8>" := by
  refine ⟨?_, by rfl⟩
  by_cases hT : w.connectOk cfg.targetChainUrl
  · by_cases hS : w.seedOk cfg.accountSeed
    · cases hsrc : sourceResults w cfg.sourceChainUrls with
      | none =>
        rw [driverRun_source_fail cfg w srcSched mergeSched hT hS hsrc]
        exact ⟨_, rfl⟩
      | some srcs =>
        rw [driverRun_success cfg w srcSched mergeSched srcs hT hS hsrc]
        exact ⟨_, rfl⟩
    · rw [driverRun_seed_fail cfg w srcSched mergeSched hT (by simpa using hS)]
      exact ⟨_, rfl⟩
  · rw [driverRun_target_fail cfg w srcSched mergeSched (by simpa using hT)]
    exact ⟨_, rfl⟩

/-- C8: with an empty source URL list the pipeline receives zero block
sequences and never submits anything, while the process starts successfully
and stays alive. -/
theorem relayer_C8_empty_sources (cfg : Config) (w : World)
    (srcSched mergeSched : List Nat)
    (hempty : cfg.sourceChainUrls = [])
    (hT : w.connectOk cfg.targetChainUrl = true)
    (hS : w.seedOk cfg.accountSeed = true) :
    (driverRun cfg w srcSched mergeSched).2 = Outcome.running ⟨[], w.startNonce⟩ ∧
    exitsNonZero (driverRun cfg w srcSched mergeSched).2 = false ∧
    (∀ s, Event.submit s ∉ (driverRun cfg w srcSched mergeSched).1) ∧
    Event.processBlocks 0 ∈ (driverRun cfg w srcSched mergeSched).1 ∧
    (∀ sched, subscribePipeline ⟨[], w.startNonce⟩ sched = []) := by
  have hsrc : sourceResults w cfg.sourceChainUrls = some [] := by
    rw [hempty]; rfl
  have hpipe : ∀ sched, subscribePipeline ⟨([] : List (List Block)), w.startNonce⟩
      sched = [] := by
    intro sched
    simp [subscribePipeline, interleaveSched_empty, submitAll]
  rw [driverRun_success cfg w srcSched mergeSched [] hT hS hsrc]
  refine ⟨by simp, rfl, ?_, ?_, hpipe⟩
  · intro s
    simp [hempty, interleaveSched_empty, hpipe]
  · simp [hempty, interleaveSched_empty, hpipe]

/-- Witness for C8: the concrete zero-source run stays alive with an empty
pipeline. -/
theorem relayer_C8_witness :
    (driverRun cfgNoSources worldOk [] []).2 = Outcome.running ⟨[], 5⟩ :=
  (relayer_C8_empty_sources cfgNoSources worldOk [] [] rfl
    (by decide) (by decide)).1

/-- C7: target.processBlocks(...) by itself causes no submissions: in every
successful run all submit events come strictly after the subscribe event,
and the submissions are exactly the effect of driving the cold pipeline
value that processBlocks returned. -/
theorem relayer_C7_pipeline_cold (cfg : Config) (w : World)
    (srcSched mergeSched : List Nat) (srcs : List Source)
    (hT : w.connectOk cfg.targetChainUrl = true)
    (hS : w.seedOk cfg.accountSeed = true)
    (hsrc : sourceResults w cfg.sourceChainUrls = some srcs) :
    ∃ pre, (driverRun cfg w srcSched mergeSched).1 =
        pre ++ [Event.processBlocks srcs.length, Event.subscribe]
          ++ (subscribePipeline
                (processBlocks ⟨⟨cfg.targetChainUrl, some types⟩, ⟨cfg.accountSeed⟩⟩
                  w (srcs.map (subscribeBlocks w))) mergeSched).map Event.submit ∧
      ∀ s, Event.submit s ∉ pre := by
  refine ⟨[Event.loadConfig, Event.connectTarget cfg.targetChainUrl (some types),
    Event.deriveSigner cfg.accountSeed, Event.constructTarget]
    ++ interleaveSched srcSched (cfg.sourceChainUrls.map (sourceTaskEvents w))
    ++ (List.range srcs.length).map Event.subscribeBlocks, ?_, ?_⟩
  · rw [driverRun_success cfg w srcSched mergeSched srcs hT hS hsrc]
    simp [processBlocks]
  · intro s hs
    simp only [List.mem_append] at hs
    rcases hs with (hs | hs) | hs
    · simp at hs
    · exact (srcPhase_only_source_events w cfg.sourceChainUrls srcSched _ hs).2.2.1 s rfl
    · obtain ⟨j, _, hj⟩ := List.mem_map.mp hs
      exact Event.noConfusion hj

/-- Witness for C7 at a concrete successful run. -/
theorem relayer_C7_witness :
    ∃ pre, (driverRun cfgAB worldOk [0, 0, 0, 1, 1, 1] [0]).1 =
        pre ++ [Event.processBlocks ([srcA, srcB] : List Source).length,
            Event.subscribe]
          ++ (subscribePipeline
                (processBlocks ⟨⟨cfgAB.targetChainUrl, some types⟩,
                  ⟨cfgAB.accountSeed⟩⟩ worldOk
                  (([srcA, srcB] : List Source).map (subscribeBlocks worldOk)))
                [0]).map Event.submit ∧
      ∀ s, Event.submit s ∉ pre :=
  relayer_C7_pipeline_cold cfgAB worldOk [0, 0, 0, 1, 1, 1] [0] [srcA, srcB]
    (by decide) (by decide) (by decide)

/-- C3 (amended): one failing source connection makes the joint
`Promise.all` await reject: the run is fatal, processBlocks and subscribe
are never reached and nothing is ever submitted — but Sources for other
URLs may still be constructed by their concurrently running tasks. -/
theorem relayer_C3_source_failure_no_processing (cfg : Config) (w : World)
    (srcSched mergeSched : List Nat) (url : String)
    (hmem : url ∈ cfg.sourceChainUrls)
    (hfail : sourceTaskResult w url = none) :
    (driverRun cfg w srcSched mergeSched).2 = Outcome.fatal ∧
    (∀ n, Event.processBlocks n ∉ (driverRun cfg w srcSched mergeSched).1) ∧
    Event.subscribe ∉ (driverRun cfg w srcSched mergeSched).1 ∧
    (∀ s, Event.submit s ∉ (driverRun cfg w srcSched mergeSched).1) := by
  by_cases hT : w.connectOk cfg.targetChainUrl
  · by_cases hS : w.seedOk cfg.accountSeed
    · have hsrc : sourceResults w cfg.sourceChainUrls = none :=
        sourceResults_none_of_task_fail w cfg.sourceChainUrls url hmem hfail
      rw [driverRun_source_fail cfg w srcSched mergeSched hT hS hsrc]
      refine ⟨rfl, ?_, ?_, ?_⟩
      · intro n hn
        simp only [List.mem_append] at hn
        rcases hn with hn | hn
        · simp at hn
        · exact (srcPhase_only_source_events w _ _ _ hn).1 n rfl
      · intro hn
        simp only [List.mem_append] at hn
        rcases hn with hn | hn
        · simp at hn
        · exact (srcPhase_only_source_events w _ _ _ hn).2.1 rfl
      · intro s hn
        simp only [List.mem_append] at hn
        rcases hn with hn | hn
        · simp at hn
        · exact (srcPhase_only_source_events w _ _ _ hn).2.2.1 s rfl
    · obtain ⟨h1, _, h3, h4, h5⟩ := driver_startup_fail_props cfg w srcSched mergeSched
        (Or.inr (by simpa using hS))
      exact ⟨h1, h4, h5, h3⟩
  · obtain ⟨h1, _, h3, h4, h5⟩ := driver_startup_fail_props cfg w srcSched mergeSched
      (Or.inl (by simpa using hT))
    exact ⟨h1, h4, h5, h3⟩

/-- C3 counterexample: source "ws://a" is unreachable, the run is fatal and
processBlocks is never reached — yet the Source for "ws://b" is constructed
by its concurrent task, refuting "one source-connection failure prevents any
Source from being constructed". -/
theorem relayer_C3_counterexample :
    Event.constructSource "ws://b" "chain-b"
        ∈ (driverRun cfgAB worldAFails [1, 1, 1, 0] []).1 ∧
    (driverRun cfgAB worldAFails [1, 1, 1, 0] []).2 = Outcome.fatal ∧
    sourceTaskResult worldAFails "ws://b" = some ⟨⟨"ws://b", none⟩, "chain-b"⟩ := by
  decide

/-- Witness for C3's amended statement at the concrete failing world. -/
theorem relayer_C3_witness :
    Event.subscribe ∉ (driverRun cfgAB worldAFails [1, 1, 1, 0] []).1 :=
  (relayer_C3_source_failure_no_processing cfgAB worldAFails [1, 1, 1, 0] []
    "ws://a" (by decide) (by decide)).2.2.1

/-! ## `Promise.all` is settlement-order independent -/

theorem promiseAllSlots_eq {α : Type} (tasks : List (Option α)) :
    ∀ (sched : List Nat) (s : Nat → Option α) (i : Nat),
      sched.foldl (fillSlot tasks) s i
        = if i ∈ sched then (tasks[i]?).getD none else s i := by
  intro sched
  induction sched with
  | nil => intro s i; simp
  | cons j rest ih =>
    intro s i
    rw [List.foldl_cons, ih]
    by_cases hir : i ∈ rest
    · simp [hir]
    · by_cases hij : i = j
      · subst hij
        simp [hir, fillSlot]
      · simp [hir, hij, fillSlot]

theorem gatherSlots_map_succ {α : Type} (s : Nat → Option α) :
    ∀ is : List Nat,
      gatherSlots s (is.map Nat.succ) = gatherSlots (fun i => s (i + 1)) is := by
  intro is
  induction is with
  | nil => rfl
  | cons i is ih => simp [gatherSlots, ih]

theorem gatherSlots_range {α : Type} :
    ∀ (tasks : List (Option α)) (s : Nat → Option α),
      (∀ i, i < tasks.length → s i = (tasks[i]?).getD none) →
      gatherSlots s (List.range tasks.length) = sequenceTasks tasks := by
  intro tasks
  induction tasks with
  | nil => intro s _; rfl
  | cons t ts ih =>
    intro s h
    have h0 : s 0 = t := by simpa using h 0 (by simp)
    have hrec := ih (fun i => s (i + 1)) (by
      intro i hi
      simpa using h (i + 1) (by simpa using hi))
    rw [List.length_cons, List.range_succ_eq_map]
    show (match s 0, gatherSlots s ((List.range ts.length).map Nat.succ) with
      | some a, some rest => some (a :: rest)
      | _, _ => none) = sequenceTasks (t :: ts)
    rw [h0, gatherSlots_map_succ, hrec]
    cases t with
    | none => simp [sequenceTasks]
    | some a => cases hts : sequenceTasks ts <;> simp [sequenceTasks, hts]

theorem promiseAll_eq_sequenceTasks {α : Type} (tasks : List (Option α))
    (sched : List Nat) (hcov : ∀ i, i < tasks.length → i ∈ sched) :
    promiseAll tasks sched = sequenceTasks tasks := by
  unfold promiseAll
  apply gatherSlots_range
  intro i hi
  unfold promiseAllSlots
  rw [promiseAllSlots_eq tasks sched (fun _ => none) i]
  simp [hcov i hi]

theorem mapM_eq_sequenceTasks {α β : Type} (f : α → Option β) :
    ∀ l : List α, l.mapM f = sequenceTasks (l.map f) := by
  intro l
  induction l with
  | nil => rfl
  | cons a l ih =>
    rw [List.map_cons, List.mapM_cons, ih]
    cases hfa : f a with
    | none => simp [sequenceTasks]
    | some b => cases hseq : sequenceTasks (l.map f) <;> simp [sequenceTasks, hseq]

theorem count_subscribeBlocks_range (n i : Nat) (hi : i < n) :
    ((List.range n).map Event.subscribeBlocks).count (Event.subscribeBlocks i)
      = 1 := by
  apply List.count_eq_one_of_mem
  · exact (List.nodup_range n).map (fun a b h => by injection h)
  · exact List.mem_map.mpr ⟨i, List.mem_range.mpr hi, rfl⟩

/-- C9: the sources list is index-aligned with `config.sourceChainUrls` —
the i-th Source wraps a handle connected to the i-th URL together with that
chain's queried identity; `Promise.all` produces exactly this list for every
settlement order of the concurrent connection tasks; and each Source's
`subscribeBlocks()` is invoked exactly once per run. -/
theorem relayer_C9_index_alignment (w : World) (urls : List String)
    (srcs : List Source) (hsrc : sourceResults w urls = some srcs) :
    srcs.length = urls.length ∧
    (∀ (i : Nat) (u : String), urls[i]? = some u →
        ∃ c, w.chainName u = some c ∧ srcs[i]? = some ⟨⟨u, none⟩, c⟩) ∧
    (∀ sched : List Nat, (∀ i, i < urls.length → i ∈ sched) →
        promiseAll (urls.map (sourceTaskResult w)) sched = some srcs) ∧
    (∀ (cfg : Config) (srcSched mergeSched : List Nat),
        cfg.sourceChainUrls = urls →
        w.connectOk cfg.targetChainUrl = true →
        w.seedOk cfg.accountSeed = true →
        ∀ i, i < srcs.length →
          (driverRun cfg w srcSched mergeSched).1.count (Event.subscribeBlocks i)
            = 1) := by
  obtain ⟨hlen, hget⟩ := sourceResults_spec w urls srcs hsrc
  refine ⟨hlen, hget, ?_, ?_⟩
  · intro sched hcov
    rw [promiseAll_eq_sequenceTasks (urls.map (sourceTaskResult w)) sched
      (by simpa using hcov)]
    rw [← mapM_eq_sequenceTasks]
    exact hsrc
  · intro cfg srcSched mergeSched hcfg hT hS i hi
    have hsrc' : sourceResults w cfg.sourceChainUrls = some srcs := by
      rw [hcfg]; exact hsrc
    rw [driverRun_success cfg w srcSched mergeSched srcs hT hS hsrc']
    rw [hcfg]
    simp only [List.count_append]
    have h1 : ([Event.loadConfig, Event.connectTarget cfg.targetChainUrl (some types),
        Event.deriveSigner cfg.accountSeed, Event.constructTarget]).count
          (Event.subscribeBlocks i) = 0 :=
      List.count_eq_zero.mpr (by simp)
    have h2 : (interleaveSched srcSched (urls.map (sourceTaskEvents w))).count
        (Event.subscribeBlocks i) = 0 :=
      List.count_eq_zero.mpr (fun hmem =>
        (srcPhase_only_source_events w urls srcSched _ hmem).2.2.2 i rfl)
    have h3 : ((List.range srcs.length).map Event.subscribeBlocks).count
        (Event.subscribeBlocks i) = 1 := count_subscribeBlocks_range srcs.length i hi
    have h4 : ([Event.processBlocks srcs.length, Event.subscribe]).count
        (Event.subscribeBlocks i) = 0 :=
      List.count_eq_zero.mpr (by simp)
    have h5 : ((subscribePipeline ⟨srcs.map (subscribeBlocks w), w.startNonce⟩
        mergeSched).map Event.submit).count (Event.subscribeBlocks i) = 0 :=
      List.count_eq_zero.mpr (by simp)
    omega

/-- Witness for C9: with tasks settling in the order b-then-a, `Promise.all`
still yields the sources in configured order a,b. -/
theorem relayer_C9_witness :
    promiseAll ((["ws://a", "ws://b"]).map (sourceTaskResult worldOk)) [1, 0]
      = some [srcA, srcB] :=
  (relayer_C9_index_alignment worldOk ["ws://a", "ws://b"] [srcA, srcB]
    (by decide)).2.2.1 [1, 0] (by decide)

end Relayer
